import Mathlib

/-!
# lonsh: a shallow embedding of `src/main.c`

The shell of `src/main.c` is embedded as pure functions over an explicit `World`
(what the shell process can observe or change) and an `OS` (the answers of the
operating system and the C library that the program cannot control: whether an
allocation succeeds, whether `chdir`, `fork` and `execvp` succeed, how a child ends).

Conventions of the embedding.
* A C string is the list of its characters before the terminating NUL (`Str`).
* A `malloc`ed array is a list of cells, `none` being a cell never written.
* A function either returns, terminates the process through `exit`, blocks for
  ever in `waitpid`, or has undefined behaviour in the sense of the C standard
  (signed overflow of an `int`, access outside an allocation, use of the value of
  a function that ran off its end).
* `int` variables hold natural numbers here, every operation that could leave the
  range of `int` being guarded by a comparison with `INT_MAX`.
* `lonsh_readline` is the branch compiled when `lonsh_USE_STD_GETLINE` is not defined,
  which is the case in this file.
* `fprintp` in `lonsh_split_line` is read as `fprintf`, `char *&args` as `char **args`,
  the missing `=` of `builtin_func` is supplied and the stray `;` of `lonsh_TOK_DELIM`
  is dropped: the intent of each is plain. The prompt `printf("% ")` is taken to
  print its two characters.
* Not modelled: read errors of `getchar`, errors of `waitpid`, and what a child
  process reads or writes itself (a child is seen through `waitpid` only).
-/

namespace Lonsh

/-! ## Data model -/

/-- C string: its characters before the NUL. -/
abbrev Str := List Char

/-- The NUL character. -/
def NUL : Char := Char.ofNat 0

/-- Value of `EXIT_SUCCESS`. -/
def EXIT_SUCCESS : Nat := 0

/-- Value of `EXIT_FAILURE`. -/
def EXIT_FAILURE : Nat := 1

/-- Largest value of the C type `int` (32 bits on every POSIX platform). -/
def INT_MAX : Nat := 2147483647

/-- One write to standard error: a fixed text, or `perror(s)`, that is `s`, a colon
and the text of the operating system for the last error. -/
inductive Diag where
  | text (s : String)
  | perror (s : String)
  deriving DecidableEq, Repr

/-- What `waitpid(pid, &status, WUNTRACED)` reports about a child. -/
inductive WaitStatus where
  | exited (code : Nat)
  | signaled (sig : Nat)
  | stopped (sig : Nat)
  deriving DecidableEq, Repr

/-- `WIFEXITED(status)`. -/
def WIFEXITED : WaitStatus → Bool
  | .exited _ => true
  | _ => false

/-- `WIFSIGNALED(status)`. -/
def WIFSIGNALED : WaitStatus → Bool
  | .signaled _ => true
  | _ => false

/-- State the shell process observes and changes. -/
structure World where
  /-- Characters of standard input not yet read. -/
  stdin : List Char
  /-- Writes to standard output so far, oldest first. -/
  stdout : List String
  /-- Writes to standard error so far, oldest first. -/
  stderr : List Diag
  /-- Working directory of the process. -/
  cwd : Str
  /-- Number of `malloc`/`realloc` calls made so far. -/
  nalloc : Nat
  /-- Number of `fork` calls made so far. -/
  nfork : Nat
  /-- Argument vector of every child process created so far. -/
  children : List (List Str)
  deriving DecidableEq, Repr

/-- Answers of the operating system and the C library. -/
structure OS where
  /-- Whether the `k`-th allocation request (`malloc` or `realloc`) succeeds. -/
  alloc_ok : Nat → Bool
  /-- Result of `chdir(path)` from the directory `cwd`: the new working directory,
  or `none` when the call fails. -/
  chdir : (cwd : Str) → (path : Str) → Option Str
  /-- Whether the `k`-th `fork` succeeds. -/
  fork_ok : Nat → Bool
  /-- Result of `execvp(file, argv)` in a child whose directory is `cwd`: `none` when
  the call fails (returns -1); otherwise the successive reports that `waitpid`
  gives the parent about the program the child became. -/
  execvp : (cwd : Str) → (file : Str) → (argv : List Str) → Option (List WaitStatus)

/-- Value of an `int` returned by a function: a number, or indeterminate when the
function reached its closing brace without a `return`. -/
inductive RetVal where
  | val (v : Int)
  | indeterminate
  deriving DecidableEq, Repr

/-- How a call ends. -/
inductive Outcome (α : Type) where
  /-- The call returns `a`. -/
  | returned (a : α) (w : World)
  /-- The process terminates through `exit(status)`. -/
  | exited (status : Nat) (w : World)
  /-- The call blocks for ever (in `waitpid`). -/
  | blocked (w : World)
  /-- Undefined behaviour of C. -/
  | undefined
  /-- The recursion bound of the embedding was too small (never the case for the
  bounds the entry points pass, see `split_loop_total` and `lonsh_loop_fuel_enough`). -/
  | outOfFuel
  deriving DecidableEq, Repr

/-- Array of `char`: one cell per byte of the allocation. -/
abbrev CharBuf := List (Option Char)

/-- Array of `char *`: `some none` is a NULL pointer, `some (some s)` a pointer to the
string `s`, `none` a cell never written. -/
abbrev Argv := List (Option (Option Str))

/-- Read of `args[i]`: `none` when the cell is outside the array or was never written. -/
def Argv.read (args : Argv) (i : Nat) : Option (Option Str) :=
  (args[i]?).join

/-- The strings of an argument vector up to its NULL terminator, as `execvp` reads
them; `none` when there is no terminator before an unwritten cell or the end. -/
def Argv.strings : Argv → Option (List Str)
  | [] => none
  | none :: _ => none
  | some none :: _ => some []
  | some (some s) :: rest => (Argv.strings rest).map (s :: ·)

/-- The argument vector holding the tokens `toks`, the NULL terminator, and then
the cells `junk`. -/
def mkArgv (toks : List Str) (junk : Argv) : Argv :=
  toks.map (fun t => some (some t)) ++ some none :: junk

/-- The C string stored at the start of a character array; `none` when there is no
NUL before an unwritten cell or the end of the array. -/
def cstr : CharBuf → Option Str
  | [] => none
  | none :: _ => none
  | some c :: rest => if c = NUL then some [] else (cstr rest).map (c :: ·)

/-! ## C library -/

/-- Function `malloc(n)` for an array of `n` cells. -/
def malloc {α : Type} (os : OS) (w : World) (n : Nat) : Option (List (Option α)) × World :=
  (if os.alloc_ok w.nalloc then some (List.replicate n none) else none,
   { w with nalloc := w.nalloc + 1 })

/-- Function `realloc(p, n)` for an array of `n` cells: the old cells are kept up to
the smaller of the two sizes, the new ones are unwritten. -/
def realloc {α : Type} (os : OS) (w : World) (p : List (Option α)) (n : Nat) :
    Option (List (Option α)) × World :=
  (if os.alloc_ok w.nalloc then some (p.take n ++ List.replicate (n - p.length) none) else none,
   { w with nalloc := w.nalloc + 1 })

/-- Function `fprintf(stderr, s)` for a text without conversions. -/
def eprint (w : World) (s : String) : World :=
  { w with stderr := w.stderr ++ [Diag.text s] }

/-- Function `perror(s)`. -/
def perror (w : World) (s : String) : World :=
  { w with stderr := w.stderr ++ [Diag.perror s] }

/-- Function `printf(s)` for a text without conversions. -/
def print (w : World) (s : String) : World :=
  { w with stdout := w.stdout ++ [s] }

/-- One call of `strtok` on the string `s` (the argument of the first call, or the
position saved by the previous call): `none` for NULL, otherwise the token and
the position saved for the next call. -/
def strtok (s : Str) (delim : List Char) : Option (Str × Str) :=
  let s1 := s.dropWhile (fun c => decide (c ∈ delim))
  if s1 = [] then none
  else some (s1.takeWhile (fun c => !decide (c ∈ delim)),
             (s1.dropWhile (fun c => !decide (c ∈ delim))).drop 1)

/-! ## Builtins -/

/-- Table `builtin_str`. -/
def builtin_str : List Str := ["cd".toList, "help".toList, "exit".toList]

/-- Function `lonsh_num_builtins`: the length of the tables, over which the loops of
`lonsh_help` and `lonsh_execute` below run from the first entry to the last. -/
def lonsh_num_builtins : Nat := builtin_str.length

/-- Function `lonsh_cd`. -/
def lonsh_cd (os : OS) (w : World) (args : Argv) : Outcome RetVal :=
  match args.read 1 with
  | none => .undefined
  | some none =>
    .returned (.val 1) (eprint w "lonsh: expected argument to \"cd\"\n")
  | some (some dir) =>
    match os.chdir w.cwd dir with
    | some d => .returned (.val 1) { w with cwd := d }
    | none => .returned (.val 1) (perror w "lonsh")

/-- The loop of `lonsh_help`, from index `i` on. -/
def help_loop (w : World) : List Str → World
  | [] => w
  | name :: rest => help_loop (print w ("    " ++ String.mk name ++ "\n")) rest

/-- Function `lonsh_help`: it has no `return`. -/
def lonsh_help (_os : OS) (w : World) (_args : Argv) : Outcome RetVal :=
  let w := print w "Eric Londo's Shell/Command Line Interpreter\n"
  let w := print w "Type program names and arguments and hit [ENTER]\n"
  let w := print w "The following functions are built in:\n"
  let w := help_loop w builtin_str
  .returned .indeterminate w

/-- Function `lonsh_exit`. -/
def lonsh_exit (_os : OS) (w : World) (_args : Argv) : Outcome RetVal :=
  .returned (.val 0) w

/-- Table `builtin_func`. -/
def builtin_func : List (OS → World → Argv → Outcome RetVal) :=
  [lonsh_cd, lonsh_help, lonsh_exit]

/-! ## Process launcher -/

/-- The `do ... while (!WIFEXITED(status) && !WIFSIGNALED(status))` loop of
`lonsh_launch` over the reports of `waitpid`: `true` when the loop ends, `false`
when `waitpid` blocks for ever because the child changes state no more. -/
def wait_loop : List WaitStatus → Bool
  | [] => false
  | status :: rest => if !WIFEXITED status && !WIFSIGNALED status then wait_loop rest else true

/-- Function `lonsh_launch`, seen from the shell process. The branch `pid == 0` runs
in the child: its `perror` goes to the standard error it shares with the shell
and its `exit(EXIT_FAILURE)` ends the child only. -/
def lonsh_launch (os : OS) (w : World) (args : Argv) : Outcome RetVal :=
  let w1 := { w with nfork := w.nfork + 1 }
  if os.fork_ok w.nfork then
    match args.read 0, args.strings with
    | some (some file), some argv =>
      let w2 := { w1 with children := w1.children ++ [argv] }
      -- child
      let (w3, reports) :=
        match os.execvp w.cwd file argv with
        | none => (perror w2 "lonsh", [WaitStatus.exited EXIT_FAILURE])
        | some reports => (w2, reports)
      -- parent
      if wait_loop reports then .returned (.val 1) w3 else .blocked w3
    | _, _ => .undefined
  else
    .returned (.val 1) (perror w1 "lonsh")

/-! ## Dispatcher -/

/-- The `for` loop of `lonsh_execute` over the two parallel tables. -/
def execute_loop (os : OS) (w : World) (args : Argv) (arg0 : Str) :
    List Str → List (OS → World → Argv → Outcome RetVal) → Outcome RetVal
  | name :: names, func :: funcs =>
    if arg0 = name then func os w args else execute_loop os w args arg0 names funcs
  | _, _ => lonsh_launch os w args

/-- Function `lonsh_execute`. -/
def lonsh_execute (os : OS) (w : World) (args : Argv) : Outcome RetVal :=
  match args.read 0 with
  | none => .undefined
  | some none => .returned (.val 1) w
  | some (some arg0) => execute_loop os w args arg0 builtin_str builtin_func

/-! ## Line reader -/

/-- Constant `lonsh_RL_BUFSIZE`. -/
def lonsh_RL_BUFSIZE : Nat := 1024

/-- The `while (1)` loop of `lonsh_readline` (the branch without
`lonsh_USE_STD_GETLINE`); the first argument is what `getchar` will deliver. -/
def readline_loop (os : OS) :
    List Char → World → (bufsize position : Nat) → (buffer : CharBuf) → Outcome CharBuf
  | [], w, _, _, _ => .exited EXIT_SUCCESS { w with stdin := [] }
  | c :: rest, w, bufsize, position, buffer =>
    if c = '\n' then
      if position < buffer.length then
        .returned (buffer.set position (some NUL)) { w with stdin := rest }
      else .undefined
    else if position < buffer.length then
      let buffer := buffer.set position (some c)
      if position + 1 ≤ INT_MAX then
        let position := position + 1
        if position ≥ bufsize then
          if bufsize + lonsh_RL_BUFSIZE ≤ INT_MAX then
            let bufsize := bufsize + lonsh_RL_BUFSIZE
            match realloc os w buffer bufsize with
            | (some buffer, w) => readline_loop os rest w bufsize position buffer
            | (none, w) =>
              .exited EXIT_FAILURE (eprint { w with stdin := rest } "lonsh: allocation error\n")
          else .undefined
        else readline_loop os rest w bufsize position buffer
      else .undefined
    else .undefined

/-- Function `lonsh_readline`. -/
def lonsh_readline (os : OS) (w : World) : Outcome CharBuf :=
  let bufsize := lonsh_RL_BUFSIZE
  let position := 0
  match malloc os w bufsize with
  | (none, w) => .exited EXIT_FAILURE (eprint w "lonsh: allocation error\n")
  | (some buffer, w) => readline_loop os w.stdin w bufsize position buffer

/-! ## Tokenizer -/

/-- Constant `lonsh_TOK_BUFSIZE`. -/
def lonsh_TOK_BUFSIZE : Nat := 64

/-- Constant `lonsh_TOK_DELIM`: space, space, tab, carriage return, newline, bell. -/
def lonsh_TOK_DELIM : List Char := [' ', ' ', '\t', '\r', '\n', Char.ofNat 7]

/-- The `while (token != NULL)` loop of `lonsh_split_line` and the two statements
after it. The last argument is the result of the latest `strtok` call; the first
bounds the number of iterations. -/
def split_loop (os : OS) :
    Nat → World → (bufsize position : Nat) → (tokens : Argv) → Option (Str × Str) → Outcome Argv
  | _, w, _, position, tokens, none =>
    if position < tokens.length then .returned (tokens.set position (some none)) w
    else .undefined
  | 0, _, _, _, _, some _ => .outOfFuel
  | fuel + 1, w, bufsize, position, tokens, some (token, saved) =>
    if position < tokens.length then
      let tokens := tokens.set position (some (some token))
      let position := position + 1
      if position ≥ bufsize then
        let bufsize := bufsize + lonsh_TOK_BUFSIZE
        let tokens_backup := tokens
        match realloc os w tokens_backup bufsize with
        | (_, w) =>
          -- `if (!tokens) free(tokens_backup);` and then, outside the `if`:
          .exited EXIT_FAILURE (eprint w "lonsh: allocation error\n")
      else split_loop os fuel w bufsize position tokens (strtok saved lonsh_TOK_DELIM)
    else .undefined

/-- Function `lonsh_split_line`. -/
def lonsh_split_line (os : OS) (w : World) (line : Str) : Outcome Argv :=
  let bufsize := lonsh_TOK_BUFSIZE
  let position := 0
  match malloc os w bufsize with
  | (none, w) => .exited EXIT_FAILURE (eprint w "lonsh: allocation error\n")
  | (some tokens, w) =>
    split_loop os (line.length + 1) w bufsize position tokens (strtok line lonsh_TOK_DELIM)

/-! ## Loop driver -/

/-- The `do ... while (status)` loop of `lonsh_loop`; the first argument bounds the
number of iterations. -/
def lonsh_loop_fuel (os : OS) : Nat → World → Outcome Unit
  | 0, _ => .outOfFuel
  | fuel + 1, w =>
    let w := print w "% "
    match lonsh_readline os w with
    | .returned line w =>
      match cstr line with
      | none => .undefined
      | some s =>
        match lonsh_split_line os w s with
        | .returned args w =>
          match lonsh_execute os w args with
          | .returned status w =>
            match status with
            | .indeterminate => .undefined
            | .val v => if v ≠ 0 then lonsh_loop_fuel os fuel w else .returned () w
          | .exited st w => .exited st w
          | .blocked w => .blocked w
          | .undefined => .undefined
          | .outOfFuel => .outOfFuel
        | .exited st w => .exited st w
        | .blocked w => .blocked w
        | .undefined => .undefined
        | .outOfFuel => .outOfFuel
    | .exited st w => .exited st w
    | .blocked w => .blocked w
    | .undefined => .undefined
    | .outOfFuel => .outOfFuel

/-- Function `lonsh_loop`: every iteration that continues has read a newline, so one
more iteration than there are characters on standard input is enough. -/
def lonsh_loop (os : OS) (w : World) : Outcome Unit :=
  lonsh_loop_fuel os (w.stdin.length + 1) w

/-! ## Definitions used to state the properties -/

/-- An array of `cap` cells whose first cells hold `xs` and whose other cells were never
written. -/
def cells {α : Type} (xs : List α) (cap : Nat) : List (Option α) :=
  xs.map some ++ List.replicate (cap - xs.length) none

/-- The delimiter characters of the specification: space, tab, carriage return,
newline, bell. -/
def isDelim (c : Char) : Bool :=
  c = ' ' || c = '\t' || c = '\r' || c = '\n' || c = Char.ofNat 7

/-- The maximal runs of non-delimiter characters of a line, in order of appearance,
as the specification words it: the line is cut at every delimiter and the empty
pieces (between two consecutive delimiters, or at an end) are dropped. -/
def maximalRuns (line : Str) : List Str :=
  (line.splitOnP isDelim).filter (fun t => !t.isEmpty)

/-- Capacity of the line buffer once `n` characters are stored. -/
def cap_of (n : Nat) : Nat := lonsh_RL_BUFSIZE * (n / lonsh_RL_BUFSIZE + 1)

/-- Length of line at which `bufsize += lonsh_RL_BUFSIZE` leaves the range of `int`. -/
def READLINE_LIMIT : Nat := 2147482624

/-- The world after `k` more allocation requests. -/
def bump (w : World) (k : Nat) : World := { w with nalloc := w.nalloc + k }

/-- An operating system on which every request succeeds and every program exits
with status 0 at once. -/
def os_ok : OS where
  alloc_ok := fun _ => true
  chdir := fun _ path => some path
  fork_ok := fun _ => true
  execvp := fun _ _ _ => some [WaitStatus.exited 0]

/-- A fresh world whose standard input holds `input`. -/
def world_of (input : List Char) : World where
  stdin := input
  stdout := []
  stderr := []
  cwd := ['/']
  nalloc := 0
  nfork := 0
  children := []

/-- Line of 64 one-letter tokens, each followed by one space. -/
def line64 : Str := (List.replicate 64 ['a', ' ']).flatten

/-- The world after `lonsh_launch` created a child for the tokens `argv`. -/
def forked (w : World) (argv : List Str) : World :=
  { w with nfork := w.nfork + 1, children := w.children ++ [argv] }

/-- The world after one iteration of `lonsh_loop` has printed the prompt, read the line
`cs` (and its newline) and tokenized it, `k` allocation requests having been made
by the tokenizer. -/
def line_world (w : World) (cs rest : List Char) (k : Nat) : World :=
  { w with
    stdin := rest
    stdout := w.stdout ++ ["% "]
    nalloc := w.nalloc + (1 + cs.length / lonsh_RL_BUFSIZE) + k }

/-- The argument vector `lonsh_split_line` returns for a line of fewer than 64 tokens. -/
def line_argv (cs : Str) : Argv :=
  mkArgv (maximalRuns cs)
    (List.replicate (lonsh_TOK_BUFSIZE - ((maximalRuns cs).length + 1)) none)

/-- A call that returns leaves standard input as it was, and the call does not run
out of its recursion bound. -/
def KeepsInput {α : Type} (w : World) : Outcome α → Prop
  | .returned _ w' => w'.stdin = w.stdin
  | .outOfFuel => False
  | _ => True

/-- A call that returns has consumed standard input down to fewer than `n`
characters, and the call does not run out of its recursion bound. -/
def Shrinks {α : Type} (n : Nat) : Outcome α → Prop
  | .returned _ w' => w'.stdin.length < n
  | .outOfFuel => False
  | _ => True

/-! ## Arrays of cells -/

theorem cells_length {α : Type} (xs : List α) (cap : Nat) (h : xs.length ≤ cap) :
    (cells xs cap).length = cap := by
  simp [cells]; omega

theorem cells_set {α : Type} (xs : List α) (cap : Nat) (x : α) (h : xs.length < cap) :
    (cells xs cap).set xs.length (some x) = cells (xs ++ [x]) cap := by
  unfold cells
  have hc : cap - xs.length = (cap - (xs ++ [x]).length) + 1 := by simp; omega
  rw [hc, List.replicate_succ]
  rw [List.set_append_right _ _ (by simp)]
  simp

theorem cells_grow {α : Type} (xs : List α) (cap n : Nat) (h : xs.length ≤ cap) (hn : cap ≤ n) :
    (cells xs cap).take n ++ List.replicate (n - (cells xs cap).length) none = cells xs n := by
  rw [cells_length xs cap h, List.take_of_length_le (by rw [cells_length xs cap h]; exact hn)]
  unfold cells
  rw [List.append_assoc, ← List.replicate_add]
  congr 2
  omega

/-! ## Delimiters, `strtok` and maximal runs -/

theorem mem_delim (c : Char) : decide (c ∈ lonsh_TOK_DELIM) = isDelim c := by
  simp [lonsh_TOK_DELIM, isDelim, Bool.or_assoc]

theorem maximalRuns_nil : maximalRuns [] = [] := by
  simp [maximalRuns]

theorem maximalRuns_cons_delim (c : Char) (s : Str) (h : isDelim c = true) :
    maximalRuns (c :: s) = maximalRuns s := by
  simp [maximalRuns, h]

theorem maximalRuns_dropWhile (s : Str) :
    maximalRuns (s.dropWhile isDelim) = maximalRuns s := by
  induction s with
  | nil => rfl
  | cons c s ih =>
    by_cases h : isDelim c = true
    · rw [List.dropWhile_cons_of_pos h, ih, maximalRuns_cons_delim c s h]
    · rw [List.dropWhile_cons_of_neg h]

theorem maximalRuns_run (c : Char) (s : Str) (h : isDelim c = false) :
    maximalRuns (c :: s) =
      (c :: s).takeWhile (fun x => !isDelim x) ::
        maximalRuns (((c :: s).dropWhile (fun x => !isDelim x)).drop 1) := by
  have hsplit := List.takeWhile_append_dropWhile (fun x => !isDelim x) (c :: s)
  have htw : ∀ x ∈ (c :: s).takeWhile (fun x => !isDelim x), ¬ isDelim x = true := by
    intro x hx
    have := List.mem_takeWhile_imp hx
    simpa using this
  have hne : (c :: s).takeWhile (fun x => !isDelim x) ≠ [] := by
    simp [List.takeWhile_cons, h]
  cases hd : (c :: s).dropWhile (fun x => !isDelim x) with
  | nil =>
    rw [hd, List.append_nil] at hsplit
    rw [hsplit] at htw ⊢
    simp only [maximalRuns, List.drop_nil, List.splitOnP_nil]
    rw [List.splitOnP_eq_single _ _ htw]
    simp
  | cons d r =>
    have hdd : isDelim d = true := by
      have := List.head_dropWhile_not (fun x => !isDelim x) (c :: s) (by rw [hd]; simp)
      simp only [hd, List.head_cons] at this
      simpa using this
    rw [hd] at hsplit
    conv_lhs => rw [← hsplit]
    simp only [maximalRuns, List.drop_succ_cons, List.drop_zero]
    rw [List.splitOnP_first _ _ htw d hdd r]
    rw [List.filter_cons_of_pos]
    cases hq : (c :: s).takeWhile (fun x => !isDelim x) with
    | nil => exact absurd hq hne
    | cons _ _ => simp

theorem delim_fun : (fun c => decide (c ∈ lonsh_TOK_DELIM)) = isDelim :=
  funext mem_delim

theorem not_delim_fun : (fun c => !decide (c ∈ lonsh_TOK_DELIM)) = (fun c => !isDelim c) := by
  funext c; rw [mem_delim]

theorem strtok_none (s : Str) (h : strtok s lonsh_TOK_DELIM = none) : maximalRuns s = [] := by
  unfold strtok at h
  simp only [delim_fun] at h
  split at h
  · rename_i hnil
    rw [← maximalRuns_dropWhile, hnil, maximalRuns_nil]
  · cases h

theorem strtok_some (s tok saved : Str) (h : strtok s lonsh_TOK_DELIM = some (tok, saved)) :
    maximalRuns s = tok :: maximalRuns saved ∧ saved.length < s.length := by
  unfold strtok at h
  simp only [delim_fun, not_delim_fun] at h
  split at h
  · cases h
  · rename_i hne
    cases hd : s.dropWhile isDelim with
    | nil => exact absurd hd hne
    | cons c r =>
      rw [hd] at h
      have hc : isDelim c = false := by
        have := List.head_dropWhile_not isDelim s (by rw [hd]; simp)
        simp only [hd, List.head_cons] at this
        simpa using this
      simp only [Option.some.injEq, Prod.mk.injEq] at h
      obtain ⟨h1, h2⟩ := h
      constructor
      · rw [← maximalRuns_dropWhile, hd, maximalRuns_run c r hc, h1, h2]
      · rw [← h2]
        have l1 : (List.drop 1 (List.dropWhile (fun c => !isDelim c) (c :: r))).length
            ≤ (c :: r).length - 1 := by
          rw [List.length_drop]
          have := (List.dropWhile_sublist (fun c => !isDelim c) (l := c :: r)).length_le
          omega
        have l2 : (c :: r).length ≤ s.length := by
          rw [← hd]; exact (List.dropWhile_sublist _).length_le
        simp only [List.length_cons] at l1 l2 ⊢
        omega

/-! ## The loop of the tokenizer -/

theorem split_loop_spec (os : OS) (fuel : Nat) : ∀ (s : Str) (written : List Str) (w : World),
    s.length < fuel → written.length + (maximalRuns s).length < lonsh_TOK_BUFSIZE →
    split_loop os fuel w lonsh_TOK_BUFSIZE written.length
        (cells (written.map some) lonsh_TOK_BUFSIZE) (strtok s lonsh_TOK_DELIM)
      = .returned (cells ((written ++ maximalRuns s).map some ++ [none]) lonsh_TOK_BUFSIZE) w := by
  induction fuel with
  | zero => intro s written w h; omega
  | succ fuel ih =>
    intro s written w hf hlen
    have hw : written.length < lonsh_TOK_BUFSIZE := by omega
    have hcl : (cells (written.map some) lonsh_TOK_BUFSIZE).length = lonsh_TOK_BUFSIZE :=
      cells_length _ _ (by simp; omega)
    cases ht : strtok s lonsh_TOK_DELIM with
    | none =>
      rw [split_loop, if_pos (by rw [hcl]; exact hw)]
      rw [strtok_none s ht, List.append_nil]
      have := cells_set (written.map some) lonsh_TOK_BUFSIZE none (by simpa using hw)
      rw [List.length_map] at this
      rw [this]
    | some p =>
      obtain ⟨tok, saved⟩ := p
      obtain ⟨hr, hl⟩ := strtok_some s tok saved ht
      rw [hr] at hlen ⊢
      simp only [List.length_cons] at hlen
      rw [split_loop, if_pos (by rw [hcl]; exact hw)]
      have hset := cells_set (written.map some) lonsh_TOK_BUFSIZE (some tok) (by simpa using hw)
      rw [List.length_map] at hset
      simp only [hset]
      rw [if_neg (by omega)]
      have := ih saved (written ++ [tok]) w (by omega) (by simp; omega)
      simp only [List.length_append, List.length_singleton, List.map_append, List.map_cons,
        List.map_nil, List.append_assoc, List.singleton_append] at this ⊢
      exact this

theorem split_loop_overflow (os : OS) (fuel : Nat) : ∀ (s : Str) (written : List Str) (w : World),
    s.length < fuel → written.length < lonsh_TOK_BUFSIZE →
    lonsh_TOK_BUFSIZE ≤ written.length + (maximalRuns s).length →
    split_loop os fuel w lonsh_TOK_BUFSIZE written.length
        (cells (written.map some) lonsh_TOK_BUFSIZE) (strtok s lonsh_TOK_DELIM)
      = .exited EXIT_FAILURE
          (eprint { w with nalloc := w.nalloc + 1 } "lonsh: allocation error\n") := by
  induction fuel with
  | zero => intro s written w h; omega
  | succ fuel ih =>
    intro s written w hf hw hlen
    have hcl : (cells (written.map some) lonsh_TOK_BUFSIZE).length = lonsh_TOK_BUFSIZE :=
      cells_length _ _ (by simp; omega)
    cases ht : strtok s lonsh_TOK_DELIM with
    | none =>
      rw [strtok_none s ht] at hlen
      simp at hlen; omega
    | some p =>
      obtain ⟨tok, saved⟩ := p
      obtain ⟨hr, hl⟩ := strtok_some s tok saved ht
      rw [hr] at hlen
      simp only [List.length_cons] at hlen
      rw [split_loop, if_pos (by rw [hcl]; exact hw)]
      have hset := cells_set (written.map some) lonsh_TOK_BUFSIZE (some tok) (by simpa using hw)
      rw [List.length_map] at hset
      simp only [hset]
      by_cases hfull : written.length + 1 ≥ lonsh_TOK_BUFSIZE
      · rw [if_pos hfull]
        simp [realloc]
      · rw [if_neg hfull]
        have := ih saved (written ++ [tok]) w (by omega) (by simp; omega) (by simp; omega)
        simp only [List.length_append, List.length_singleton, List.map_append, List.map_cons,
          List.map_nil] at this
        exact this

/-! ## The loop of the line reader -/

theorem bump_zero (w : World) : bump w 0 = w := rfl

theorem bump_bump (w : World) (a b : Nat) : bump (bump w a) b = bump w (a + b) := by
  simp [bump, Nat.add_assoc]

theorem readline_loop_run (os : OS) (hos : ∀ k, os.alloc_ok k = true) (tail : List Char) :
    ∀ (cs pre : Str) (w : World), (∀ c ∈ cs, c ≠ '\n') →
    pre.length + cs.length < READLINE_LIMIT →
    readline_loop os (cs ++ tail) w (cap_of pre.length) pre.length
        (cells pre (cap_of pre.length))
      = readline_loop os tail
          (bump w ((pre.length + cs.length) / lonsh_RL_BUFSIZE - pre.length / lonsh_RL_BUFSIZE))
          (cap_of (pre.length + cs.length)) (pre.length + cs.length)
          (cells (pre ++ cs) (cap_of (pre.length + cs.length))) := by
  intro cs
  induction cs with
  | nil =>
    intro pre w _ _
    simp [bump_zero]
  | cons c cs ih =>
    intro pre w hnl hlen
    have hc : c ≠ '\n' := hnl c (List.mem_cons_self _ _)
    have hcs : ∀ x ∈ cs, x ≠ '\n' := fun x hx => hnl x (List.mem_cons_of_mem _ hx)
    simp only [List.length_cons] at hlen
    have hpos : pre.length < cap_of pre.length := by
      simp only [cap_of, lonsh_RL_BUFSIZE]; omega
    have hcl : (cells pre (cap_of pre.length)).length = cap_of pre.length :=
      cells_length _ _ (Nat.le_of_lt hpos)
    have hint : pre.length + 1 ≤ INT_MAX := by
      simp only [READLINE_LIMIT] at hlen; simp only [INT_MAX]; omega
    have hih := ih (pre ++ [c]) 
    simp only [List.length_append, List.length_singleton, List.append_assoc,
      List.singleton_append] at hih
    rw [List.cons_append, readline_loop, if_neg hc, if_pos (by rw [hcl]; exact hpos)]
    simp only [cells_set pre (cap_of pre.length) c hpos, if_pos hint]
    by_cases hfull : pre.length + 1 ≥ cap_of pre.length
    · have hcap : cap_of pre.length + lonsh_RL_BUFSIZE = cap_of (pre.length + 1) := by
        simp only [cap_of, lonsh_RL_BUFSIZE] at hfull hpos ⊢; omega
      have hroom : cap_of pre.length + lonsh_RL_BUFSIZE ≤ INT_MAX := by
        simp only [cap_of, lonsh_RL_BUFSIZE, READLINE_LIMIT, INT_MAX] at hfull hpos hlen ⊢; omega
      rw [if_pos hfull, if_pos hroom]
      have hgrow := cells_grow (pre ++ [c]) (cap_of pre.length)
        (cap_of pre.length + lonsh_RL_BUFSIZE) (by simp; omega) (by omega)
      simp only [realloc, hos, if_true, hgrow]
      rw [hcap]
      have := hih (bump w 1) hcs (by omega)
      rw [bump_bump] at this
      have hk : 1 + ((pre.length + 1 + cs.length) / lonsh_RL_BUFSIZE
            - (pre.length + 1) / lonsh_RL_BUFSIZE)
          = (pre.length + (cs.length + 1)) / lonsh_RL_BUFSIZE - pre.length / lonsh_RL_BUFSIZE := by
        simp only [cap_of, lonsh_RL_BUFSIZE] at hfull hpos ⊢; omega
      rw [hk] at this
      have he : pre.length + 1 + cs.length = pre.length + (cs.length + 1) := by omega
      rw [he] at this
      exact this
    · have hcap : cap_of pre.length = cap_of (pre.length + 1) := by
        simp only [cap_of, lonsh_RL_BUFSIZE] at hfull hpos ⊢; omega
      rw [if_neg hfull]
      have := hih w hcs (by omega)
      have hk : (pre.length + 1 + cs.length) / lonsh_RL_BUFSIZE
            - (pre.length + 1) / lonsh_RL_BUFSIZE
          = (pre.length + (cs.length + 1)) / lonsh_RL_BUFSIZE - pre.length / lonsh_RL_BUFSIZE := by
        simp only [cap_of, lonsh_RL_BUFSIZE] at hfull hpos ⊢; omega
      rw [hk] at this
      have he : pre.length + 1 + cs.length = pre.length + (cs.length + 1) := by omega
      rw [he] at this
      rw [← hcap] at this
      rw [this]
      rfl

theorem cstr_append (cs : Str) (junk : CharBuf) :
    cstr (cs.map some ++ some NUL :: junk) = some (cs.takeWhile (fun c => c ≠ NUL)) := by
  induction cs with
  | nil => simp [cstr]
  | cons c cs ih =>
    by_cases hc : c = NUL
    · simp [cstr, hc]
    · rw [List.map_cons, List.cons_append, cstr, if_neg hc, ih,
        List.takeWhile_cons_of_pos (by simpa using hc)]
      rfl

theorem cstr_cells (cs : Str) (cap : Nat) :
    cstr (cells (cs ++ [NUL]) cap) = some (cs.takeWhile (fun c => c ≠ NUL)) := by
  have : cells (cs ++ [NUL]) cap
      = cs.map some ++ some NUL :: List.replicate (cap - (cs ++ [NUL]).length) none := by
    simp [cells]
  rw [this, cstr_append]

theorem readline_spec (os : OS) (hos : ∀ k, os.alloc_ok k = true) (w : World)
    (cs rest : List Char) (hin : w.stdin = cs ++ '\n' :: rest) (hnl : ∀ c ∈ cs, c ≠ '\n')
    (hlen : cs.length < READLINE_LIMIT) :
    lonsh_readline os w
      = .returned (cells (cs ++ [NUL]) (cap_of cs.length))
          { bump w (1 + cs.length / lonsh_RL_BUFSIZE) with stdin := rest } := by
  have hrun := readline_loop_run os hos ('\n' :: rest) cs [] (bump w 1) hnl (by simpa using hlen)
  have hpos : cs.length < cap_of cs.length := by
    simp only [cap_of, lonsh_RL_BUFSIZE]; omega
  have h0 : cap_of 0 = lonsh_RL_BUFSIZE := by simp [cap_of, lonsh_RL_BUFSIZE]
  simp only [List.length_nil, Nat.zero_add, List.nil_append, Nat.zero_div, Nat.sub_zero,
    bump_bump, h0] at hrun
  unfold lonsh_readline
  simp only [malloc, hos, if_true]
  have hc : (cells ([] : Str) lonsh_RL_BUFSIZE) = List.replicate lonsh_RL_BUFSIZE none := by
    simp [cells]
  rw [hc] at hrun
  show readline_loop os w.stdin (bump w 1) _ _ _ = _
  rw [hin, hrun, readline_loop]
  rw [if_pos rfl, if_pos (by rw [cells_length _ _ (Nat.le_of_lt hpos)]; exact hpos)]
  rw [cells_set cs (cap_of cs.length) NUL hpos]

theorem readline_eof (os : OS) (hos : ∀ k, os.alloc_ok k = true) (w : World)
    (hnl : ∀ c ∈ w.stdin, c ≠ '\n') (hlen : w.stdin.length < READLINE_LIMIT) :
    lonsh_readline os w
      = .exited EXIT_SUCCESS
          { bump w (1 + w.stdin.length / lonsh_RL_BUFSIZE) with stdin := [] } := by
  have hrun := readline_loop_run os hos [] w.stdin [] (bump w 1) hnl (by simpa using hlen)
  have h0 : cap_of 0 = lonsh_RL_BUFSIZE := by simp [cap_of, lonsh_RL_BUFSIZE]
  simp only [List.length_nil, Nat.zero_add, List.nil_append, Nat.zero_div, Nat.sub_zero,
    bump_bump, h0, List.append_nil] at hrun
  unfold lonsh_readline
  simp only [malloc, hos, if_true]
  have hc : (cells ([] : Str) lonsh_RL_BUFSIZE) = List.replicate lonsh_RL_BUFSIZE none := by
    simp [cells]
  rw [hc] at hrun
  show readline_loop os w.stdin (bump w 1) _ _ _ = _
  rw [hrun, readline_loop]

theorem readline_overflow (os : OS) (hos : ∀ k, os.alloc_ok k = true) (w : World)
    (pre : Str) (c : Char) (rest : List Char) (hin : w.stdin = pre ++ c :: rest)
    (hnl : ∀ x ∈ pre, x ≠ '\n') (hc : c ≠ '\n') (hlen : pre.length + 1 = READLINE_LIMIT) :
    lonsh_readline os w = .undefined := by
  have hrun := readline_loop_run os hos (c :: rest) pre [] (bump w 1) hnl
    (by simp only [List.length_nil]; omega)
  have h0 : cap_of 0 = lonsh_RL_BUFSIZE := by simp [cap_of, lonsh_RL_BUFSIZE]
  simp only [List.length_nil, Nat.zero_add, List.nil_append, Nat.zero_div, Nat.sub_zero,
    bump_bump, h0] at hrun
  unfold lonsh_readline
  simp only [malloc, hos, if_true]
  have hc0 : (cells ([] : Str) lonsh_RL_BUFSIZE) = List.replicate lonsh_RL_BUFSIZE none := by
    simp [cells]
  rw [hc0] at hrun
  have hcap : cap_of pre.length = READLINE_LIMIT := by
    simp only [cap_of, lonsh_RL_BUFSIZE, READLINE_LIMIT] at hlen ⊢; omega
  have hpos : pre.length < cap_of pre.length := by
    simp only [cap_of, lonsh_RL_BUFSIZE]; omega
  show readline_loop os w.stdin (bump w 1) _ _ _ = _
  rw [hin, hrun, readline_loop]
  rw [if_neg hc, if_pos (by rw [cells_length _ _ (Nat.le_of_lt hpos)]; exact hpos)]
  simp only []
  rw [if_pos (by simp only [READLINE_LIMIT, INT_MAX] at hlen ⊢; omega),
    if_pos (by rw [hcap]; omega),
    if_neg (by rw [hcap]; simp [READLINE_LIMIT, INT_MAX, lonsh_RL_BUFSIZE])]

/-! ## The tokenizer as a whole -/

theorem cells_mkArgv (toks : List Str) (cap : Nat) :
    cells (toks.map some ++ [none]) cap
      = mkArgv toks (List.replicate (cap - (toks.length + 1)) none) := by
  simp [cells, mkArgv]

theorem split_line_small (os : OS) (w : World) (line : Str)
    (hm : os.alloc_ok w.nalloc = true) (h : (maximalRuns line).length < lonsh_TOK_BUFSIZE) :
    lonsh_split_line os w line
      = .returned
          (mkArgv (maximalRuns line)
            (List.replicate (lonsh_TOK_BUFSIZE - ((maximalRuns line).length + 1)) none))
          (bump w 1) := by
  have := split_loop_spec os (line.length + 1) line [] (bump w 1) (by omega) (by simpa using h)
  simp only [List.length_nil, List.map_nil, List.nil_append] at this
  unfold lonsh_split_line
  simp only [malloc, hm, if_true]
  rw [← cells_mkArgv, ← this]
  simp [cells, bump]

theorem split_line_large (os : OS) (w : World) (line : Str)
    (hm : os.alloc_ok w.nalloc = true) (h : lonsh_TOK_BUFSIZE ≤ (maximalRuns line).length) :
    lonsh_split_line os w line
      = .exited EXIT_FAILURE (eprint (bump w 2) "lonsh: allocation error\n") := by
  have := split_loop_overflow os (line.length + 1) line [] (bump w 1) (by omega)
    (by simp [lonsh_TOK_BUFSIZE]) (by simpa using h)
  simp only [List.length_nil, List.map_nil] at this
  unfold lonsh_split_line
  simp only [malloc, hm, if_true]
  have hb : ({ bump w 1 with nalloc := (bump w 1).nalloc + 1 } : World) = bump w 2 := rfl
  rw [hb] at this
  rw [← this]
  simp [cells, bump]

theorem split_line_nomem (os : OS) (w : World) (line : Str)
    (hm : os.alloc_ok w.nalloc = false) :
    lonsh_split_line os w line
      = .exited EXIT_FAILURE (eprint (bump w 1) "lonsh: allocation error\n") := by
  unfold lonsh_split_line
  simp [malloc, hm, bump]

theorem maximalRuns_all_delim (line : Str) (h : ∀ c ∈ line, isDelim c = true) :
    maximalRuns line = [] := by
  induction line with
  | nil => rfl
  | cons c s ih =>
    rw [maximalRuns_cons_delim c s (h c (List.mem_cons_self _ _))]
    exact ih (fun x hx => h x (List.mem_cons_of_mem _ hx))

theorem maximalRuns_tokens (n : Nat) : ∀ (line : Str), line.length < n →
    ∀ t ∈ maximalRuns line, t ≠ [] ∧ ∀ c ∈ t, isDelim c = false := by
  induction n with
  | zero => intro line h; omega
  | succ n ih =>
    intro line hl t ht
    cases line with
    | nil => simp [maximalRuns_nil] at ht
    | cons c s =>
      simp only [List.length_cons] at hl
      by_cases hc : isDelim c = true
      · rw [maximalRuns_cons_delim c s hc] at ht
        exact ih s (by omega) t ht
      · have hc2 : isDelim c = false := by simpa using hc
        rw [maximalRuns_run c s hc2] at ht
        rcases List.mem_cons.mp ht with h | h
        · subst h
          constructor
          · simp [List.takeWhile_cons, hc2]
          · intro x hx
            have := List.mem_takeWhile_imp hx
            simpa using this
        · refine ih _ ?_ t h
          rw [List.length_drop]
          have := (List.dropWhile_sublist (fun x => !isDelim x) (l := c :: s)).length_le
          simp only [List.length_cons] at this
          omega

theorem maximalRuns_clean (line : Str) :
    ∀ t ∈ maximalRuns line, t ≠ [] ∧ ∀ c ∈ t, isDelim c = false :=
  maximalRuns_tokens (line.length + 1) line (Nat.lt_succ_self _)

/-! ## Argument vectors -/

theorem read_zero_cons (a : Str) (toks : List Str) (junk : Argv) :
    (mkArgv (a :: toks) junk).read 0 = some (some a) := by
  simp [Argv.read, mkArgv]

theorem read_zero_nil (junk : Argv) : (mkArgv [] junk).read 0 = some none := by
  simp [Argv.read, mkArgv]

theorem read_one_single (a : Str) (junk : Argv) :
    (mkArgv [a] junk).read 1 = some none := by
  simp [Argv.read, mkArgv]

theorem read_one_cons (a b : Str) (toks : List Str) (junk : Argv) :
    (mkArgv (a :: b :: toks) junk).read 1 = some (some b) := by
  simp [Argv.read, mkArgv]

theorem strings_mkArgv (toks : List Str) (junk : Argv) :
    (mkArgv toks junk).strings = some toks := by
  induction toks with
  | nil => rfl
  | cons t toks ih =>
    have : mkArgv (t :: toks) junk = some (some t) :: mkArgv toks junk := rfl
    rw [this, Argv.strings, ih]
    rfl

/-! ## Dispatcher and builtins -/

theorem execute_cd (os : OS) (w : World) (toks : List Str) (junk : Argv) :
    lonsh_execute os w (mkArgv ("cd".toList :: toks) junk)
      = lonsh_cd os w (mkArgv ("cd".toList :: toks) junk) := by
  simp [lonsh_execute, read_zero_cons, builtin_str, builtin_func, execute_loop]

theorem execute_help (os : OS) (w : World) (toks : List Str) (junk : Argv) :
    lonsh_execute os w (mkArgv ("help".toList :: toks) junk)
      = lonsh_help os w (mkArgv ("help".toList :: toks) junk) := by
  simp [lonsh_execute, read_zero_cons, builtin_str, builtin_func, execute_loop]

theorem execute_exit (os : OS) (w : World) (toks : List Str) (junk : Argv) :
    lonsh_execute os w (mkArgv ("exit".toList :: toks) junk)
      = lonsh_exit os w (mkArgv ("exit".toList :: toks) junk) := by
  simp [lonsh_execute, read_zero_cons, builtin_str, builtin_func, execute_loop]

theorem execute_other (os : OS) (w : World) (arg0 : Str) (toks : List Str) (junk : Argv)
    (h1 : arg0 ≠ "cd".toList) (h2 : arg0 ≠ "help".toList) (h3 : arg0 ≠ "exit".toList) :
    lonsh_execute os w (mkArgv (arg0 :: toks) junk)
      = lonsh_launch os w (mkArgv (arg0 :: toks) junk) := by
  simp only [lonsh_execute, read_zero_cons, builtin_str, builtin_func, execute_loop,
    if_neg h1, if_neg h2, if_neg h3]

theorem wait_loop_stops (stops : List Nat) (last : WaitStatus) (more : List WaitStatus)
    (h : WIFEXITED last = true ∨ WIFSIGNALED last = true) :
    wait_loop (stops.map WaitStatus.stopped ++ last :: more) = true := by
  induction stops with
  | nil => rcases h with h | h <;> simp [wait_loop, h]
  | cons s stops ih => simpa [wait_loop, WIFEXITED, WIFSIGNALED] using ih

theorem launch_fork_fails (os : OS) (w : World) (args : Argv) (h : os.fork_ok w.nfork = false) :
    lonsh_launch os w args = .returned (.val 1) (perror { w with nfork := w.nfork + 1 } "lonsh") := by
  simp [lonsh_launch, h]

theorem launch_exec_fails (os : OS) (w : World) (arg0 : Str) (toks : List Str) (junk : Argv)
    (h : os.fork_ok w.nfork = true) (he : os.execvp w.cwd arg0 (arg0 :: toks) = none) :
    lonsh_launch os w (mkArgv (arg0 :: toks) junk)
      = .returned (.val 1) (perror (forked w (arg0 :: toks)) "lonsh") := by
  simp [lonsh_launch, h, read_zero_cons, strings_mkArgv, he, wait_loop, WIFEXITED, forked]

theorem launch_runs (os : OS) (w : World) (arg0 : Str) (toks : List Str) (junk : Argv)
    (reports : List WaitStatus)
    (h : os.fork_ok w.nfork = true) (he : os.execvp w.cwd arg0 (arg0 :: toks) = some reports) :
    lonsh_launch os w (mkArgv (arg0 :: toks) junk)
      = if wait_loop reports then .returned (.val 1) (forked w (arg0 :: toks))
        else .blocked (forked w (arg0 :: toks)) := by
  simp [lonsh_launch, h, read_zero_cons, strings_mkArgv, he, forked]

theorem execute_case_sensitive (os : OS) (w : World) (junk : Argv) :
    lonsh_execute os w (mkArgv ["EXIT".toList] junk)
        = lonsh_launch os w (mkArgv ["EXIT".toList] junk) ∧
    lonsh_execute os w (mkArgv ["exit1".toList] junk)
        = lonsh_launch os w (mkArgv ["exit1".toList] junk) :=
  ⟨execute_other os w _ [] junk (by decide) (by decide) (by decide),
   execute_other os w _ [] junk (by decide) (by decide) (by decide)⟩

/-! ## One iteration of the loop driver -/

theorem takeWhile_no_nul (cs : Str) (h : ∀ c ∈ cs, c ≠ NUL) :
    cs.takeWhile (fun c => c ≠ NUL) = cs := by
  rw [List.takeWhile_eq_self_iff]
  intro c hc
  simpa using h c hc

theorem loop_step (os : OS) (hos : ∀ k, os.alloc_ok k = true) (fuel : Nat) (w : World)
    (cs rest : List Char) (hin : w.stdin = cs ++ '\n' :: rest)
    (hnl : ∀ c ∈ cs, c ≠ '\n') (hnul : ∀ c ∈ cs, c ≠ NUL) (hlen : cs.length < READLINE_LIMIT)
    (hsmall : (maximalRuns cs).length < lonsh_TOK_BUFSIZE) :
    lonsh_loop_fuel os (fuel + 1) w
      = match lonsh_execute os (line_world w cs rest 1) (line_argv cs) with
        | .returned .indeterminate _ => .undefined
        | .returned (.val v) w2 => if v ≠ 0 then lonsh_loop_fuel os fuel w2 else .returned () w2
        | .exited st w2 => .exited st w2
        | .blocked w2 => .blocked w2
        | .undefined => .undefined
        | .outOfFuel => .outOfFuel := by
  rw [lonsh_loop_fuel]
  rw [readline_spec os hos (print w "% ") cs rest hin hnl hlen]
  simp only [cstr_cells, takeWhile_no_nul cs hnul]
  rw [split_line_small os _ cs (hos _) hsmall]
  simp only []
  have hw : bump { bump (print w "% ") (1 + cs.length / lonsh_RL_BUFSIZE) with stdin := rest } 1
      = line_world w cs rest 1 := rfl
  rw [hw]
  unfold line_argv
  generalize lonsh_execute os (line_world w cs rest 1) _ = o
  cases o with
  | returned r w2 => cases r <;> rfl
  | _ => rfl

theorem loop_step_large (os : OS) (hos : ∀ k, os.alloc_ok k = true) (fuel : Nat) (w : World)
    (cs rest : List Char) (hin : w.stdin = cs ++ '\n' :: rest)
    (hnl : ∀ c ∈ cs, c ≠ '\n') (hnul : ∀ c ∈ cs, c ≠ NUL) (hlen : cs.length < READLINE_LIMIT)
    (hlarge : lonsh_TOK_BUFSIZE ≤ (maximalRuns cs).length) :
    lonsh_loop_fuel os (fuel + 1) w
      = .exited EXIT_FAILURE (eprint (line_world w cs rest 2) "lonsh: allocation error\n") := by
  rw [lonsh_loop_fuel]
  rw [readline_spec os hos (print w "% ") cs rest hin hnl hlen]
  simp only [cstr_cells, takeWhile_no_nul cs hnul]
  rw [split_line_large os _ cs (hos _) hlarge]
  rfl

theorem loop_eof (os : OS) (hos : ∀ k, os.alloc_ok k = true) (fuel : Nat) (w : World)
    (hnl : ∀ c ∈ w.stdin, c ≠ '\n') (hlen : w.stdin.length < READLINE_LIMIT) :
    lonsh_loop_fuel os (fuel + 1) w
      = .exited EXIT_SUCCESS (line_world w w.stdin [] 0) := by
  rw [lonsh_loop_fuel]
  rw [readline_eof os hos (print w "% ") hnl hlen]
  rfl

/-! ## Claims on the dispatcher and the builtins -/

/-- C3. For every argument vector with at least one token, `lonsh_execute` calls the
handler `lonsh_cd`, `lonsh_help` or `lonsh_exit` and returns what it returns when
token 0 is exactly `cd`, `help` or `exit`; for every other token 0 it calls
`lonsh_launch` and nothing else, and the result is the continue-signal 1 (with no
change of directory and no output of a builtin) when `fork` fails, when `execvp`
fails in the child, and when the child exits with any status or is killed by any
signal after any number of stops; `lonsh_launch` returns no other value. -/
theorem execute_dispatch (os : OS) (w : World) (arg0 : Str) (toks : List Str) (junk : Argv) :
    (arg0 = "cd".toList →
      lonsh_execute os w (mkArgv (arg0 :: toks) junk)
        = lonsh_cd os w (mkArgv (arg0 :: toks) junk)) ∧
    (arg0 = "help".toList →
      lonsh_execute os w (mkArgv (arg0 :: toks) junk)
        = lonsh_help os w (mkArgv (arg0 :: toks) junk)) ∧
    (arg0 = "exit".toList →
      lonsh_execute os w (mkArgv (arg0 :: toks) junk)
        = lonsh_exit os w (mkArgv (arg0 :: toks) junk)) ∧
    (arg0 ≠ "cd".toList → arg0 ≠ "help".toList → arg0 ≠ "exit".toList →
      lonsh_execute os w (mkArgv (arg0 :: toks) junk)
          = lonsh_launch os w (mkArgv (arg0 :: toks) junk) ∧
      (∀ r w', lonsh_execute os w (mkArgv (arg0 :: toks) junk) = .returned r w' → r = .val 1) ∧
      (os.fork_ok w.nfork = false →
        lonsh_execute os w (mkArgv (arg0 :: toks) junk)
          = .returned (.val 1) (perror { w with nfork := w.nfork + 1 } "lonsh")) ∧
      (os.fork_ok w.nfork = true → os.execvp w.cwd arg0 (arg0 :: toks) = none →
        lonsh_execute os w (mkArgv (arg0 :: toks) junk)
          = .returned (.val 1) (perror (forked w (arg0 :: toks)) "lonsh")) ∧
      (∀ (stops : List Nat) (last : WaitStatus) (more : List WaitStatus),
        os.fork_ok w.nfork = true →
        os.execvp w.cwd arg0 (arg0 :: toks)
          = some (stops.map WaitStatus.stopped ++ last :: more) →
        WIFEXITED last = true ∨ WIFSIGNALED last = true →
        lonsh_execute os w (mkArgv (arg0 :: toks) junk)
          = .returned (.val 1) (forked w (arg0 :: toks)))) := by
  refine ⟨?_, ?_, ?_, ?_⟩
  · intro h; subst h; exact execute_cd os w toks junk
  · intro h; subst h; exact execute_help os w toks junk
  · intro h; subst h; exact execute_exit os w toks junk
  · intro h1 h2 h3
    have hl := execute_other os w arg0 toks junk h1 h2 h3
    refine ⟨hl, ?_, ?_, ?_, ?_⟩
    · intro r w' hr
      rw [hl] at hr
      cases hf : os.fork_ok w.nfork with
      | false =>
        rw [launch_fork_fails os w _ hf] at hr
        cases hr; rfl
      | true =>
        cases he : os.execvp w.cwd arg0 (arg0 :: toks) with
        | none =>
          rw [launch_exec_fails os w arg0 toks junk hf he] at hr
          cases hr; rfl
        | some reports =>
          rw [launch_runs os w arg0 toks junk reports hf he] at hr
          split at hr
          · cases hr; rfl
          · cases hr
    · intro hf
      rw [hl, launch_fork_fails os w _ hf]
    · intro hf he
      rw [hl, launch_exec_fails os w arg0 toks junk hf he]
    · intro stops last more hf he hlast
      rw [hl, launch_runs os w arg0 toks junk _ hf he, wait_loop_stops stops last more hlast]
      rfl

/-- Witness of C3: `ls -l` on an operating system where every call succeeds and the
child exits with status 0 gives the continue-signal and one child. -/
theorem execute_dispatch_witness :
    lonsh_execute os_ok (world_of []) (mkArgv ["ls".toList, "-l".toList] [])
      = .returned (.val 1) (forked (world_of []) ["ls".toList, "-l".toList]) :=
  (execute_dispatch os_ok (world_of []) "ls".toList ["-l".toList] []).2.2.2
    (by decide) (by decide) (by decide) |>.2.2.2.2 [] (.exited 0) [] rfl rfl (Or.inl rfl)

/-- C4. For every argument vector whose token 0 is `exit`, whatever the tokens after
it, `lonsh_execute` returns the stop-signal 0 and leaves the world as it was: no
child is created, no directory changed, nothing read or written. -/
theorem exit_signal_stop (os : OS) (w : World) (toks : List Str) (junk : Argv) :
    lonsh_execute os w (mkArgv ("exit".toList :: toks) junk) = .returned (.val 0) w := by
  rw [execute_exit]; rfl

/-- C5. For every line made of delimiter characters only (the empty line too), when
its allocation succeeds `lonsh_split_line` returns the vector whose entry 0 is the
NULL terminator, and on that vector `lonsh_execute` returns the continue-signal 1
and leaves the world as it was: no handler, no launcher, no change of directory. -/
theorem blank_line_noop (os : OS) (w : World) (line : Str)
    (hline : ∀ c ∈ line, isDelim c = true) (hm : os.alloc_ok w.nalloc = true) :
    lonsh_split_line os w line
        = .returned (mkArgv [] (List.replicate (lonsh_TOK_BUFSIZE - 1) none)) (bump w 1) ∧
    (mkArgv [] (List.replicate (lonsh_TOK_BUFSIZE - 1) none)).read 0 = some none ∧
    ∀ w' : World,
      lonsh_execute os w' (mkArgv [] (List.replicate (lonsh_TOK_BUFSIZE - 1) none))
        = .returned (.val 1) w' := by
  have hr := maximalRuns_all_delim line hline
  have := split_line_small os w line hm (by rw [hr]; simp [lonsh_TOK_BUFSIZE])
  rw [hr] at this
  refine ⟨this, read_zero_nil _, ?_⟩
  intro w'
  simp [lonsh_execute, read_zero_nil]

/-- Witness of C5: a line of a space, a tab and a space. -/
theorem blank_line_noop_witness :
    lonsh_split_line os_ok (world_of []) [' ', '\t', ' ']
        = .returned (mkArgv [] (List.replicate (lonsh_TOK_BUFSIZE - 1) none))
            (bump (world_of []) 1) ∧
    (mkArgv [] (List.replicate (lonsh_TOK_BUFSIZE - 1) none)).read 0 = some none ∧
    ∀ w' : World,
      lonsh_execute os_ok w' (mkArgv [] (List.replicate (lonsh_TOK_BUFSIZE - 1) none))
        = .returned (.val 1) w' :=
  blank_line_noop os_ok (world_of []) [' ', '\t', ' '] (by decide) rfl

/-- C8. For every argument vector whose token 0 is `cd`, `lonsh_execute` runs `lonsh_cd`
and: with no argument, the world is unchanged but for one message on standard
error; with an argument `dir` for which `chdir` fails, the world is unchanged but
for one `perror` on standard error; with an argument for which `chdir` succeeds,
the working directory becomes the directory `chdir` reached and nothing else
changes. In the three cases the call returns the continue-signal 1. -/
theorem cd_cases (os : OS) (w : World) (junk : Argv) :
    lonsh_execute os w (mkArgv ["cd".toList] junk)
        = .returned (.val 1)
            { w with stderr := w.stderr ++ [Diag.text "lonsh: expected argument to \"cd\"\n"] } ∧
    (∀ (dir : Str) (toks : List Str), os.chdir w.cwd dir = none →
      lonsh_execute os w (mkArgv ("cd".toList :: dir :: toks) junk)
        = .returned (.val 1) { w with stderr := w.stderr ++ [Diag.perror "lonsh"] }) ∧
    (∀ (dir d : Str) (toks : List Str), os.chdir w.cwd dir = some d →
      lonsh_execute os w (mkArgv ("cd".toList :: dir :: toks) junk)
        = .returned (.val 1) { w with cwd := d }) := by
  refine ⟨?_, ?_, ?_⟩
  · rw [execute_cd]
    simp [lonsh_cd, read_one_single, eprint]
  · intro dir toks h
    rw [execute_cd]
    simp [lonsh_cd, read_one_cons, h, perror]
  · intro dir d toks h
    rw [execute_cd]
    simp [lonsh_cd, read_one_cons, h]

/-- Witness of C8: `cd /tmp` where `chdir` succeeds. -/
theorem cd_cases_witness :
    lonsh_execute os_ok (world_of []) (mkArgv ["cd".toList, "/tmp".toList] [])
      = .returned (.val 1) { world_of [] with cwd := "/tmp".toList } :=
  (cd_cases os_ok (world_of []) []).2.2 "/tmp".toList "/tmp".toList [] rfl

theorem loop_exit_line (os : OS) (hos : ∀ k, os.alloc_ok k = true) (fuel : Nat) (w : World)
    (cs rest : List Char) (toks : List Str) (hin : w.stdin = cs ++ '\n' :: rest)
    (hnl : ∀ c ∈ cs, c ≠ '\n') (hnul : ∀ c ∈ cs, c ≠ NUL) (hlen : cs.length < READLINE_LIMIT)
    (hsmall : (maximalRuns cs).length < lonsh_TOK_BUFSIZE)
    (hexit : maximalRuns cs = "exit".toList :: toks) :
    lonsh_loop_fuel os (fuel + 1) w = .returned () (line_world w cs rest 1) := by
  rw [loop_step os hos fuel w cs rest hin hnl hnul hlen hsmall]
  unfold line_argv
  rw [hexit, execute_exit]
  rfl

/-- C9 (the code departs from it). For every argument vector whose token 0 is `help`,
`lonsh_execute` prints the three banner lines and the names `cd`, `help`, `exit` in
table order, but the value it returns is indeterminate: `lonsh_help` has no `return`
statement, so it does not return the continue-signal. The loop then tests a value
that does not exist: on the input `help`, `exit` the behaviour of `lonsh_loop` is
undefined instead of prompting again. -/
theorem help_returns_nothing (os : OS) (w : World) (toks : List Str) (junk : Argv) :
    lonsh_execute os w (mkArgv ("help".toList :: toks) junk)
        = .returned .indeterminate
            { w with stdout := w.stdout ++
                ["Eric Londo's Shell/Command Line Interpreter\n",
                 "Type program names and arguments and hit [ENTER]\n",
                 "The following functions are built in:\n",
                 "    cd\n", "    help\n", "    exit\n"] } ∧
    lonsh_loop os_ok (world_of "help\nexit\n".toList) = .undefined := by
  constructor
  · rw [execute_help]
    simp [lonsh_help, help_loop, builtin_str, print]
  · unfold lonsh_loop
    rw [loop_step os_ok (fun _ => rfl) _ _ "help".toList "exit\n".toList rfl
      (by decide) (by decide) (by decide) (by decide)]
    have : line_argv "help".toList = mkArgv ["help".toList] (List.replicate 62 none) := by
      decide
    rw [this, execute_help]
    rfl

/-! ## Claims on the tokenizer -/

/-- C1 (the code departs from it). The line of 64 one-letter tokens has 64 maximal
runs of non-delimiter characters, none of them empty, yet `lonsh_split_line` returns
no argument vector for it: whatever the operating system answers, also when
`malloc` and `realloc` both succeed, the process exits with the failure status
after the message `lonsh: allocation error`. -/
theorem split_line_64_tokens (os : OS) (w : World) :
    maximalRuns line64 = List.replicate 64 ['a'] ∧
    lonsh_split_line os w line64
      = .exited EXIT_FAILURE
          (eprint (bump w (if os.alloc_ok w.nalloc then 2 else 1))
            "lonsh: allocation error\n") := by
  have hruns : maximalRuns line64 = List.replicate 64 ['a'] := by decide
  refine ⟨hruns, ?_⟩
  cases hm : os.alloc_ok w.nalloc with
  | true =>
    rw [split_line_large os w line64 hm (by rw [hruns]; decide)]
    rfl
  | false =>
    rw [split_line_nomem os w line64 hm]
    rfl

/-- C2 (the code departs from it). For every line of 64 tokens or more, when every
allocation succeeds, `lonsh_split_line` does not return the argument vector: once
the 64th token is stored it asks `realloc` for 128 slots and then, whatever
`realloc` answered, prints `lonsh: allocation error` and exits with the failure
status. -/
theorem split_line_growth_exits (os : OS) (w : World) (line : Str)
    (hos : ∀ k, os.alloc_ok k = true)
    (hmany : lonsh_TOK_BUFSIZE ≤ (maximalRuns line).length) :
    lonsh_split_line os w line
      = .exited EXIT_FAILURE (eprint (bump w 2) "lonsh: allocation error\n") :=
  split_line_large os w line (hos _) hmany

/-- Witness of C2: the line of 64 one-letter tokens, every allocation succeeding. -/
theorem split_line_growth_exits_witness :
    lonsh_TOK_BUFSIZE ≤ (maximalRuns line64).length ∧
    lonsh_split_line os_ok (world_of []) line64
      = .exited EXIT_FAILURE (eprint (bump (world_of []) 2) "lonsh: allocation error\n") :=
  ⟨by decide, split_line_growth_exits os_ok (world_of []) line64 (fun _ => rfl) (by decide)⟩

/-! ## Claims on the line reader -/

/-- C7, counterexample. A line of 2147482624 letters followed by a newline is not
returned: when the 2147482624th letter is stored, `bufsize += lonsh_RL_BUFSIZE`
leaves the range of `int`, which is undefined behaviour. -/
theorem readline_long_line_undefined :
    lonsh_readline os_ok (world_of (List.replicate 2147482624 'a' ++ ['\n'])) = .undefined := by
  refine readline_overflow os_ok (fun _ => rfl) _ (List.replicate 2147482623 'a') 'a' ['\n']
    ?_ ?_ (by decide) ?_
  · show List.replicate (2147482623 + 1) 'a' ++ ['\n'] = _
    rw [List.replicate_succ', List.append_assoc]
    rfl
  · intro x hx
    rw [List.eq_of_mem_replicate hx]
    decide
  · rw [List.length_replicate]
    rfl

/-- C7, amended. For every `n` below 2147482624 and when every allocation succeeds: if
standard input holds `n` characters other than newline and then a newline,
`lonsh_readline` returns a buffer of `1024 * (n / 1024 + 1)` cells, more than `n`, whose
first `n` cells are those characters in order and whose cell `n` is NUL, the newline
being consumed and not stored; read as a C string the buffer is the line when the
line has no NUL. No write fell outside the allocation (the call would not return). -/
theorem readline_returns_line (os : OS) (hos : ∀ k, os.alloc_ok k = true) (w : World)
    (cs rest : List Char) (hin : w.stdin = cs ++ '\n' :: rest)
    (hnl : ∀ c ∈ cs, c ≠ '\n') (hlen : cs.length < READLINE_LIMIT) :
    ∃ buffer : CharBuf,
      lonsh_readline os w
        = .returned buffer
            { w with stdin := rest, nalloc := w.nalloc + (1 + cs.length / lonsh_RL_BUFSIZE) } ∧
      buffer.length = lonsh_RL_BUFSIZE * (cs.length / lonsh_RL_BUFSIZE + 1) ∧
      cs.length < buffer.length ∧
      buffer.take cs.length = cs.map some ∧
      buffer[cs.length]? = some (some NUL) ∧
      ((∀ c ∈ cs, c ≠ NUL) → cstr buffer = some cs) := by
  have hpos : cs.length < cap_of cs.length := by
    simp only [cap_of, lonsh_RL_BUFSIZE]; omega
  have hcl : (cells (cs ++ [NUL]) (cap_of cs.length)).length = cap_of cs.length :=
    cells_length _ _ (by simp; omega)
  refine ⟨cells (cs ++ [NUL]) (cap_of cs.length), ?_, ?_, ?_, ?_, ?_, ?_⟩
  · rw [readline_spec os hos w cs rest hin hnl hlen]; rfl
  · rw [hcl]; rfl
  · rw [hcl]; exact hpos
  · simp [cells, List.take_append_eq_append_take]
  · unfold cells
    rw [List.map_append, List.append_assoc, List.getElem?_append_right (by simp)]
    simp
  · intro hnul
    rw [cstr_cells, takeWhile_no_nul cs hnul]

/-- Witness of C7: the line `ls` followed by the command `exit`. -/
theorem readline_returns_line_witness :
    ∃ buffer : CharBuf,
      lonsh_readline os_ok (world_of "ls\nexit\n".toList)
        = .returned buffer
            { world_of "ls\nexit\n".toList with stdin := "exit\n".toList, nalloc := 1 } ∧
      buffer.length = 1024 ∧
      buffer.take 2 = [some 'l', some 's'] ∧
      buffer[2]? = some (some NUL) ∧
      cstr buffer = some "ls".toList := by
  obtain ⟨buffer, h1, h2, _, h4, h5, h6⟩ :=
    readline_returns_line os_ok (fun _ => rfl) (world_of "ls\nexit\n".toList)
      "ls".toList "exit\n".toList rfl (by decide) (by decide)
  exact ⟨buffer, h1, h2, h4, h5, h6 (by decide)⟩

/-- C10, counterexample. When standard input ends after 2147482624 letters and no
newline, the process does not reach the end of input and does not exit with
success: storing the 2147482624th letter makes `bufsize += lonsh_RL_BUFSIZE` leave the
range of `int`, which is undefined behaviour. -/
theorem readline_long_tail_undefined :
    lonsh_readline os_ok (world_of (List.replicate 2147482624 'a')) = .undefined := by
  refine readline_overflow os_ok (fun _ => rfl) _ (List.replicate 2147482623 'a') 'a' []
    ?_ ?_ (by decide) ?_
  · show List.replicate (2147482623 + 1) 'a' = _
    rw [List.replicate_succ']
  · intro x hx
    rw [List.eq_of_mem_replicate hx]
    decide
  · rw [List.length_replicate]
    rfl

/-- C10, amended. When standard input ends with fewer than 2147482624 characters since
the last newline (none, or any part of a line) and every allocation succeeds,
`lonsh_readline` does not return: it consumes those characters and exits with the
success status. The iteration of `lonsh_loop` that meets the end of input, whether
the first one or a later one, has then only printed the prompt and allocated:
nothing was written to standard error, no directory changed, no child created. -/
theorem eof_discards_partial_line (os : OS) (hos : ∀ k, os.alloc_ok k = true) (w : World)
    (hnl : ∀ c ∈ w.stdin, c ≠ '\n') (hlen : w.stdin.length < READLINE_LIMIT) :
    lonsh_readline os w
        = .exited EXIT_SUCCESS
            { w with stdin := [], nalloc := w.nalloc + (1 + w.stdin.length / lonsh_RL_BUFSIZE) } ∧
    (∀ fuel : Nat, lonsh_loop_fuel os (fuel + 1) w
        = .exited EXIT_SUCCESS
            { w with
              stdin := []
              stdout := w.stdout ++ ["% "]
              nalloc := w.nalloc + (1 + w.stdin.length / lonsh_RL_BUFSIZE) }) ∧
    lonsh_loop os w
        = .exited EXIT_SUCCESS
            { w with
              stdin := []
              stdout := w.stdout ++ ["% "]
              nalloc := w.nalloc + (1 + w.stdin.length / lonsh_RL_BUFSIZE) } := by
  refine ⟨?_, ?_, ?_⟩
  · rw [readline_eof os hos w hnl hlen]; rfl
  · intro fuel
    rw [loop_eof os hos fuel w hnl hlen]; rfl
  · unfold lonsh_loop
    rw [loop_eof os hos _ w hnl hlen]; rfl

/-- Witness of C10: standard input is `ls -l` with no newline after it. -/
theorem eof_discards_partial_line_witness :
    lonsh_loop os_ok (world_of "ls -l".toList)
        = .exited EXIT_SUCCESS
            { world_of "ls -l".toList with
              stdin := []
              stdout := (world_of "ls -l".toList).stdout ++ ["% "]
              nalloc := (world_of "ls -l".toList).nalloc
                + (1 + (world_of "ls -l".toList).stdin.length / lonsh_RL_BUFSIZE) } :=
  (eof_discards_partial_line os_ok (fun _ => rfl) (world_of "ls -l".toList)
    (by decide) (by decide)).2.2

/-! ## Claims on the loop driver -/

theorem line64_chars : ∀ c ∈ line64, c ≠ '\n' ∧ c ≠ NUL := by
  intro c hc
  have h : line64.all (fun c => c != '\n' && c != NUL) = true := by rfl
  have := List.all_eq_true.mp h c hc
  simpa using this

theorem line64_length : line64.length = 128 := rfl

/-- C6 (the code departs from it). With the line of 64 one-letter tokens followed by
the line `exit` on standard input, and every call of the operating system
succeeding, `lonsh_loop` ends on the first line, which is no `exit` command and is
never dispatched: the process exits with the failure status inside
`lonsh_split_line`, the line `exit` still unread. -/
theorem loop_ends_before_exit :
    lonsh_loop os_ok (world_of (line64 ++ '\n' :: "exit\n".toList))
      = .exited EXIT_FAILURE
          { stdin := "exit\n".toList
            stdout := ["% "]
            stderr := [Diag.text "lonsh: allocation error\n"]
            cwd := ['/']
            nalloc := 3
            nfork := 0
            children := [] } := by
  unfold lonsh_loop
  rw [loop_step_large os_ok (fun _ => rfl) _ _ line64 "exit\n".toList rfl
    (fun c hc => (line64_chars c hc).1) (fun c hc => (line64_chars c hc).2)
    (by rw [line64_length]; decide) (by decide)]
  simp [line_world, eprint, world_of, line64_length, lonsh_RL_BUFSIZE, EXIT_FAILURE]

/-! ## The recursion bounds are large enough -/

theorem Shrinks_mono {α : Type} (n m : Nat) (o : Outcome α) (h : Shrinks n o) (hnm : n ≤ m) :
    Shrinks m o := by
  cases o <;> simp only [Shrinks] at h ⊢
  omega

theorem readline_loop_shrinks (os : OS) : ∀ (inp : List Char) (w : World) (bufsize position : Nat)
    (buffer : CharBuf), Shrinks inp.length (readline_loop os inp w bufsize position buffer) := by
  intro inp
  induction inp with
  | nil => intro w b p buf; simp [readline_loop, Shrinks]
  | cons c rest ih =>
    intro w b p buf
    rw [readline_loop]
    by_cases hc : c = '\n'
    · by_cases hp : p < buf.length
      · simp [hc, hp, Shrinks]
      · simp [hc, hp, Shrinks]
    · by_cases hp : p < buf.length
      · by_cases hi : p + 1 ≤ INT_MAX
        · by_cases hf : p + 1 ≥ b
          · by_cases hr : b + lonsh_RL_BUFSIZE ≤ INT_MAX
            · cases hm : os.alloc_ok w.nalloc with
              | false => simp [hc, hp, hi, hf, hr, realloc, hm, Shrinks]
              | true =>
                simp only [hc, hp, hi, hf, hr, realloc, hm, if_true, if_false]
                exact Shrinks_mono _ _ _ (ih _ _ _ _) (by simp)
            · simp [hc, hp, hi, hf, hr, Shrinks]
          · simp only [hc, hp, hi, hf, if_true, if_false]
            exact Shrinks_mono _ _ _ (ih _ _ _ _) (by simp)
        · simp [hc, hp, hi, Shrinks]
      · simp [hc, hp, Shrinks]

theorem readline_shrinks (os : OS) (w : World) :
    Shrinks w.stdin.length (lonsh_readline os w) := by
  unfold lonsh_readline
  cases hm : os.alloc_ok w.nalloc with
  | false => simp [malloc, hm, Shrinks]
  | true =>
    simp only [malloc, hm, if_true]
    exact readline_loop_shrinks os w.stdin _ _ _ _

theorem split_line_keeps (os : OS) (w : World) (line : Str) :
    KeepsInput w (lonsh_split_line os w line) := by
  cases hm : os.alloc_ok w.nalloc with
  | false => rw [split_line_nomem os w line hm]; trivial
  | true =>
    by_cases h : (maximalRuns line).length < lonsh_TOK_BUFSIZE
    · rw [split_line_small os w line hm h]; rfl
    · rw [split_line_large os w line hm (by omega)]; trivial

theorem cd_keeps (os : OS) (w : World) (args : Argv) : KeepsInput w (lonsh_cd os w args) := by
  unfold lonsh_cd
  split
  · trivial
  · rfl
  · split <;> rfl

theorem help_keeps (os : OS) (w : World) (args : Argv) : KeepsInput w (lonsh_help os w args) := by
  simp [lonsh_help, help_loop, builtin_str, print, KeepsInput]

theorem exit_keeps (os : OS) (w : World) (args : Argv) : KeepsInput w (lonsh_exit os w args) := rfl

theorem launch_keeps (os : OS) (w : World) (args : Argv) :
    KeepsInput w (lonsh_launch os w args) := by
  unfold lonsh_launch
  simp only []
  split_ifs
  · split
    · split
      · split <;> simp [KeepsInput, perror]
      · split <;> simp [KeepsInput, perror]
    · simp [KeepsInput]
  · simp [KeepsInput, perror]

theorem execute_keeps (os : OS) (w : World) (args : Argv) :
    KeepsInput w (lonsh_execute os w args) := by
  unfold lonsh_execute
  split
  · trivial
  · rfl
  · simp only [execute_loop, builtin_str, builtin_func]
    split_ifs
    · exact cd_keeps os w args
    · exact help_keeps os w args
    · exact exit_keeps os w args
    · exact launch_keeps os w args

theorem split_loop_total (os : OS) (w : World) (line : Str) :
    lonsh_split_line os w line ≠ .outOfFuel := by
  intro h
  have := split_line_keeps os w line
  rw [h] at this
  exact this

theorem lonsh_loop_fuel_enough (os : OS) : ∀ (fuel : Nat) (w : World), w.stdin.length < fuel →
    lonsh_loop_fuel os fuel w ≠ .outOfFuel := by
  intro fuel
  induction fuel with
  | zero => intro w h; omega
  | succ fuel ih =>
    intro w hlen
    rw [lonsh_loop_fuel]
    have hr := readline_shrinks os (print w "% ")
    cases h1 : lonsh_readline os (print w "% ") with
    | returned line w1 =>
      rw [h1] at hr
      have hr1 : w1.stdin.length < w.stdin.length := hr
      simp only []
      cases h2 : cstr line with
      | none => simp
      | some s =>
        simp only []
        have hs := split_line_keeps os w1 s
        cases h3 : lonsh_split_line os w1 s with
        | returned args w2 =>
          rw [h3] at hs
          have hs2 : w2.stdin = w1.stdin := hs
          simp only []
          have he := execute_keeps os w2 args
          cases h4 : lonsh_execute os w2 args with
          | returned status w3 =>
            rw [h4] at he
            have he3 : w3.stdin = w2.stdin := he
            cases status with
            | indeterminate => simp
            | val v =>
              simp only []
              split_ifs
              · exact ih w3 (by rw [he3, hs2]; omega)
              · simp
          | exited st w3 => simp
          | blocked w3 => simp
          | undefined => simp
          | outOfFuel => rw [h4] at he; exact absurd he (by simp [KeepsInput])
        | exited st w2 => simp
        | blocked w2 => simp
        | undefined => simp
        | outOfFuel => rw [h3] at hs; exact absurd hs (by simp [KeepsInput])
    | exited st w1 => simp
    | blocked w1 => simp
    | undefined => simp
    | outOfFuel => rw [h1] at hr; exact absurd hr (by simp [Shrinks])

theorem lonsh_loop_total (os : OS) (w : World) : lonsh_loop os w ≠ .outOfFuel :=
  lonsh_loop_fuel_enough os _ w (Nat.lt_succ_self _)

end Lonsh
